import Mathlib

/-!
Verification of the CloudSync RAG core pipeline (planner, retriever,
validator, orchestrator) as a shallow embedding of the Python source in
`app/agents/planner.py`, `app/agents/retriever.py`, `app/agents/validator.py`
and `app/core/pipeline.py`.  Python floats are modelled by exact rationals,
Python sets of strings by finite sets or lists used only through membership,
and the external services (completion, embedding, vector search) by explicit
parameters at their interface boundary.
-/

namespace RAG

/-! ## Planner (app/agents/planner.py)

A JSON value as produced by decoding the completion response.  Numbers are
rationals, covering both ints and floats together with their cross-type
equality. -/

inductive Json where
  | null : Json
  | bool (b : Bool) : Json
  | num (q : ℚ) : Json
  | str (s : String) : Json
  | arr (l : List Json) : Json
  | obj (d : List (String × Json)) : Json

/-- Dictionary lookup, modelling Python `d.get(k)`; JSON object keys are
unique, so first match suffices. -/
def Json.lookup (d : List (String × Json)) (k : String) : Option Json :=
  (d.find? (fun p => p.1 == k)).map (fun p => p.2)

/-- Python truthiness of a decoded JSON value. -/
def Json.truthy : Json → Bool
  | .null => false
  | .bool b => b
  | .num q => q != 0
  | .str s => s != ""
  | .arr l => !l.isEmpty
  | .obj d => !d.isEmpty

/-- Python iteration over a decoded JSON value: lists yield their elements,
strings their one-character substrings, dicts their keys; anything else
raises TypeError (`none`). -/
def Json.iterToList : Json → Option (List Json)
  | .arr l => some l
  | .str s => some (s.data.map (fun c => Json.str (String.mk [c])))
  | .obj d => some (d.map (fun p => Json.str p.1))
  | _ => none

/-- The sub-query list extracted by `QueryPlanner.plan` from the parsed
response: a bare array is used as is; a dict is searched for the keys
sub_queries, queries, results in order, the found value being iterated
(TypeError, i.e. `none`, if not iterable); an unrecognised dict contributes
its values; any other value yields the empty list. -/
def Json.extractList : Json → Option (List Json)
  | .arr l => some l
  | .obj d =>
    match Json.lookup d "sub_queries" with
    | some v => v.iterToList
    | none =>
      match Json.lookup d "queries" with
      | some v => v.iterToList
      | none =>
        match Json.lookup d "results" with
        | some v => v.iterToList
        | none => some (d.map (fun p => p.2))
  | _ => some []

/-- A planner sub-query as actually constructed by the Python code: the
dataclass fields are unchecked, so both fields carry whatever JSON value the
entry supplied. -/
structure PSub where
  text : Json
  priority : Json

/-- Conversion of one parsed entry, from the loop body of `plan`: only dict
entries are used, text comes from the key query, falling back to text and
then to the empty string, priority from the key priority, falling back to 1;
an entry with falsy text is dropped. -/
def entryToSub (j : Json) : Option PSub :=
  match j with
  | .obj d =>
    let text := (Json.lookup d "query").getD ((Json.lookup d "text").getD (Json.str ""))
    let priority := (Json.lookup d "priority").getD (Json.num 1)
    if text.truthy then some ⟨text, priority⟩ else none
  | _ => none

/-- The fallback sub-query list: the original query with priority 1. -/
def fallbackPlan (query : String) : List PSub :=
  [⟨Json.str query, Json.num 1⟩]

/-- The tail of `plan` once the response was parsed into a JSON value:
extract the entry list (TypeError is caught by the outer handler and yields
the fallback), convert entries, and fall back when nothing survived. -/
def planFromParsed (query : String) (j : Json) : List PSub :=
  match j.extractList with
  | none => fallbackPlan query
  | some l =>
    let subs := l.filterMap entryToSub
    if subs.isEmpty then fallbackPlan query else subs

/-- The observable outcome of the completion call plus JSON decode inside
`plan`: the service raised; the content was None; the content failed to
decode; or it decoded to a JSON value. -/
inductive PlanOutcome where
  | serviceError : PlanOutcome
  | contentNone : PlanOutcome
  | parseError : PlanOutcome
  | parsed (j : Json) : PlanOutcome

/-- `QueryPlanner.plan` as a function of the query and the completion
outcome. -/
def plan (query : String) (outcome : PlanOutcome) : List PSub :=
  match outcome with
  | .serviceError => fallbackPlan query
  | .contentNone => fallbackPlan query
  | .parseError => fallbackPlan query
  | .parsed j => planFromParsed query j

/-! ## Retriever (app/agents/retriever.py) -/

/-- A sub-query as consumed by retriever and validator (priority an
integer, the common case). -/
structure SubQuery where
  text : String
  priority : Int
deriving DecidableEq, Repr

/-- A raw hit from the vector search service for one sub-query: document
text, optional metadata fields, id, and optional cosine distance. -/
structure RawHit where
  doc : String
  docMeta : Option String
  secMeta : Option String
  id : String
  distance : Option ℚ
deriving DecidableEq, Repr

/-- A retrieved document chunk with metadata. -/
structure RetrievedChunk where
  content : String
  document : String
  sectionLabel : String
  relevance_score : ℚ
  chunk_id : String
deriving DecidableEq, Repr

/-- Distance-to-score conversion from the hit-processing loop: similarity
1 - d/2 when a distance is present, 0.5 otherwise, clamped to [0, 1]. -/
def hitScore (d : Option ℚ) : ℚ :=
  max 0 (min 1 (match d with
    | some dist => 1 - dist / 2
    | none => 1 / 2))

/-- A `RetrievedChunk` built from one raw hit, with the metadata defaults of
the source. -/
def mkChunk (h : RawHit) : RetrievedChunk :=
  { content := h.doc
    document := h.docMeta.getD "unknown"
    sectionLabel := h.secMeta.getD "unknown"
    relevance_score := hitScore h.distance
    chunk_id := h.id }

/-- The hit-collection loop of `retrieve_parallel`: walk the hits in
encounter order, skipping any whose id was already seen. -/
def dedupHits (seen : List String) : List RawHit → List RetrievedChunk
  | [] => []
  | h :: t =>
    if h.id ∈ seen then dedupHits seen t
    else mkChunk h :: dedupHits (h.id :: seen) t

/-- Descending comparison by a rational key; Python `list.sort(key=...,
reverse=True)` is the stable sort by this relation. -/
def keyGE {α : Type} (key : α → ℚ) (a b : α) : Prop := key b ≤ key a

instance {α : Type} (key : α → ℚ) : DecidableRel (keyGE key) :=
  fun a b => inferInstanceAs (Decidable (key b ≤ key a))

instance {α : Type} (key : α → ℚ) : IsTotal α (keyGE key) :=
  ⟨fun a b => le_total (key b) (key a)⟩

instance {α : Type} (key : α → ℚ) : IsTrans α (keyGE key) :=
  ⟨fun _ _ _ h1 h2 => le_trans h2 h1⟩

/-- `RetrieverAgent.retrieve_parallel`, parameterised by the composite of
embedding generation and vector-store query (`store q k` is the raw hit list
for sub-query text `q` at `n_results = k`): collect hits across sub-queries
deduplicating by id, then stable-sort by relevance score descending. -/
def retrieve_parallel (store : String → ℕ → List RawHit)
    (sub_queries : List SubQuery) (top_k : ℕ) : List RetrievedChunk :=
  List.insertionSort (keyGE RetrievedChunk.relevance_score)
    (dedupHits [] (sub_queries.flatMap (fun sq => store sq.text top_k)))

/-! ## Validator (app/agents/validator.py) -/

/-- A validated chunk with confidence score. -/
structure ValidatedChunk where
  chunk : RetrievedChunk
  confidence : ℚ
  reasoning : String
deriving DecidableEq, Repr

/-- Whitespace splitting on a character list, accumulating the current
token in reverse; Python `str.split()` with no separator, which drops empty
tokens. -/
def splitWSAux : List Char → List Char → List String
  | [], cur => if cur.isEmpty then [] else [String.mk cur.reverse]
  | c :: rest, cur =>
    if c.isWhitespace then
      (if cur.isEmpty then [] else [String.mk cur.reverse]) ++ splitWSAux rest []
    else splitWSAux rest (c :: cur)

/-- The word set of a string as computed by Python
`set(s.lower().split())`: lowercase each character, split on whitespace with
empty tokens dropped, and collect into a set. -/
def pyWords (s : String) : Finset String :=
  (splitWSAux (s.data.map Char.toLower) []).toFinset

/-- `ValidatorAgent._validate_single`: lexical overlap of the query words
with the chunk words (0 when the query has no words), blended half-and-half
with the incoming relevance score, plus the band reasoning text. -/
def validate_single (chunk : RetrievedChunk) (query : String) : ℚ × String :=
  let query_words := pyWords query
  let chunk_words := pyWords chunk.content
  let overlap : ℕ := (query_words ∩ chunk_words).card
  let coverage : ℚ := if query_words ≠ ∅ then (overlap : ℚ) / query_words.card else 0
  let confidence := coverage * (1 / 2) + chunk.relevance_score * (1 / 2)
  let reasoning :=
    if confidence > 4 / 5 then "High semantic relevance and keyword overlap"
    else if confidence > 3 / 5 then "Moderate relevance, likely useful"
    else if confidence > 2 / 5 then "Low relevance, may be tangential"
    else "Poor relevance, likely not useful"
  (confidence, reasoning)

/-- `ValidatorAgent._topic_coverage`: at least 30 percent of the sub-query
words occur in the chunk. -/
def topic_coverage (chunk : RetrievedChunk) (sub_query : String) : Bool :=
  let query_words := pyWords sub_query
  let chunk_words := pyWords chunk.content
  let overlap : ℕ := (query_words ∩ chunk_words).card
  let coverage_ratio : ℚ := if query_words ≠ ∅ then (overlap : ℚ) / query_words.card else 0
  coverage_ratio > 3 / 10

/-- `ValidatorAgent.validate_batch`, with the effective threshold as an
explicit argument: empty input short-circuits; otherwise score and filter
each chunk, stable-sort by confidence descending, compute coverage of each
sub-query by the top five survivors, and decide re-retrieval. -/
def validate_batch (thr : ℚ) (chunks : List RetrievedChunk)
    (sub_queries : List SubQuery) (original_query : String) :
    List ValidatedChunk × List String × Bool :=
  if chunks = [] then
    ([], sub_queries.map (fun sq => sq.text), true)
  else
    let validated := chunks.filterMap (fun c =>
      let v := validate_single c original_query
      if v.1 ≥ thr then some ⟨c, v.1, v.2⟩ else none)
    let validated := List.insertionSort (keyGE ValidatedChunk.confidence) validated
    let covered_topics : List String := (validated.take 5).flatMap (fun vc =>
      sub_queries.filterMap (fun sq =>
        if topic_coverage vc.chunk sq.text then some sq.text else none))
    let missing_topics := (sub_queries.filter
      (fun sq => !(decide (sq.text ∈ covered_topics)))).map (fun sq => sq.text)
    let high_priority_missing := sub_queries.any
      (fun sq => decide (sq.text ∈ missing_topics) && decide (sq.priority = 1))
    (validated, missing_topics, decide (validated.length < 3) || high_priority_missing)

/-- The default `validation_threshold` from `Settings` in app/config.py. -/
def validation_threshold_default : ℚ := 6 / 10

/-- The effective threshold set by `ValidatorAgent.__init__`: the
constructor argument when positive, else the configured
`validation_threshold`. -/
def validator_min_confidence (min_confidence : ℚ) (validation_threshold : ℚ) : ℚ :=
  if min_confidence > 0 then min_confidence else validation_threshold

/-! ## Pipeline orchestrator (app/core/pipeline.py) -/

/-- A source document citation. -/
structure Source where
  document : String
  sectionLabel : String
  relevance_score : ℚ
  content_preview : String
deriving DecidableEq, Repr

/-- Metadata about query processing. -/
structure QueryMetadata where
  processing_time_ms : Int
  tokens_used : Int
  confidence : ℚ
  sub_queries : List String
  model_used : String
deriving DecidableEq, Repr

/-- Result from the RAG pipeline. -/
structure RAGResult where
  answer : String
  sources : List Source
  metadata : QueryMetadata
deriving DecidableEq, Repr

/-- `RAGPipeline._expand_queries`: every sub-query followed by a rephrased
variant with priority one lower. -/
def expand_queries (sub_queries : List SubQuery) : List SubQuery :=
  sub_queries.flatMap (fun sq => [sq, ⟨"guide for " ++ sq.text, sq.priority + 1⟩])

/-- The loop of `RAGPipeline._deduplicate_validated` with its seen-id set
explicit. -/
def dedup_validated_from (seen : List String) : List ValidatedChunk → List ValidatedChunk
  | [] => []
  | vc :: t =>
    if vc.chunk.chunk_id ∈ seen then dedup_validated_from seen t
    else vc :: dedup_validated_from (vc.chunk.chunk_id :: seen) t

/-- `RAGPipeline._deduplicate_validated`: keep the first occurrence of each
chunk_id. -/
def deduplicate_validated (validated : List ValidatedChunk) : List ValidatedChunk :=
  dedup_validated_from [] validated

/-- The `Source` built from one validated chunk during result assembly. -/
def source_of (vc : ValidatedChunk) : Source :=
  { document := vc.chunk.document
    sectionLabel := vc.chunk.sectionLabel
    relevance_score := vc.confidence
    content_preview :=
      if vc.chunk.content.length > 200 then vc.chunk.content.take 200 ++ "..."
      else vc.chunk.content }

/-- `RAGPipeline._estimate_tokens`: character-length quarters plus a fixed
overhead. -/
def estimate_tokens (query : String) (answer : String)
    (validated : List ValidatedChunk) : Int :=
  (query.length / 4 : ℕ) + (answer.length / 4 : ℕ)
    + (((validated.map (fun vc => vc.chunk.content.length)).sum) / 4 : ℕ) + 100

/-- `RAGPipeline._calculate_confidence`: mean confidence of the top three
validated chunks, 0 when there are none. -/
def calculate_confidence (validated : List ValidatedChunk) : ℚ :=
  if validated = [] then 0
  else
    let top := (validated.take 3).map (fun vc => vc.confidence)
    top.sum / top.length

/-- Steps 1 to 3b of `RAGPipeline.process`: the validated chunk list after
validation and the conditional re-retrieval merge, with the planner output
and the store as parameters. -/
def process_validated (store : String → ℕ → List RawHit) (thr : ℚ)
    (sub_queries : List SubQuery) (query : String) : List ValidatedChunk :=
  let chunks := retrieve_parallel store sub_queries 5
  let vres := validate_batch thr chunks sub_queries query
  if vres.2.2 then
    deduplicate_validated (vres.1 ++
      (retrieve_parallel store (expand_queries sub_queries) 3).map
        (fun c => ⟨c, c.relevance_score, "Retry retrieval"⟩))
  else vres.1

/-- `RAGPipeline.process`, with the externally produced pieces (planner
output, synthesized answer, wall-clock time, model name) as parameters. -/
def process (store : String → ℕ → List RawHit) (thr : ℚ)
    (sub_queries : List SubQuery) (query : String) (max_sources : ℕ)
    (answer : String) (elapsed_ms : Int) (model : String) : RAGResult :=
  let validated := process_validated store thr sub_queries query
  { answer := answer
    sources := (validated.take max_sources).map source_of
    metadata :=
      { processing_time_ms := elapsed_ms
        tokens_used := estimate_tokens query answer validated
        confidence := calculate_confidence validated
        sub_queries := sub_queries.map (fun sq => sq.text)
        model_used := model } }

/-! ## Helper lemmas -/

/-- The hit-collection loop emits each chunk id at most once and never an
id from the seen set. -/
lemma dedupHits_ids_nodup (l : List RawHit) : ∀ seen : List String,
    ((dedupHits seen l).map (fun c => c.chunk_id)).Nodup ∧
      ∀ x ∈ (dedupHits seen l).map (fun c => c.chunk_id), x ∉ seen := by
  induction l with
  | nil => intro seen; simp [dedupHits]
  | cons h t ih =>
    intro seen
    by_cases hm : h.id ∈ seen
    · simpa [dedupHits, hm] using ih seen
    · obtain ⟨ih1, ih2⟩ := ih (h.id :: seen)
      refine ⟨?_, ?_⟩
      · simp only [dedupHits, hm, if_false, List.map_cons, List.nodup_cons, mkChunk]
        exact ⟨fun hx => (ih2 _ hx) (List.mem_cons_self _ _), ih1⟩
      · intro x hx
        simp only [dedupHits, hm, if_false, List.map_cons, List.mem_cons, mkChunk] at hx
        rcases hx with rfl | hx
        · exact hm
        · exact fun hs => (ih2 _ hx) (List.mem_cons_of_mem _ hs)

/-- Per-id characterisation of the hit-collection loop: each id keeps
exactly the chunk built from its first hit. -/
lemma dedupHits_filter_id (l : List RawHit) : ∀ (seen : List String) (i : String),
    (dedupHits seen l).filter (fun c => decide (c.chunk_id = i)) =
      if i ∈ seen then []
      else ((l.find? (fun h => decide (h.id = i))).map mkChunk).toList := by
  induction l with
  | nil => intro seen i; by_cases hi : i ∈ seen <;> simp [dedupHits, hi]
  | cons h t ih =>
    intro seen i
    by_cases hm : h.id ∈ seen
    · by_cases hi : i ∈ seen
      · simp [dedupHits, hm, ih, hi]
      · have hne : ¬ (h.id = i) := fun e => hi (e ▸ hm)
        simp [dedupHits, hm, ih, hi, List.find?, hne]
    · by_cases hhi : h.id = i
      · subst hhi
        have hkeep : decide ((mkChunk h).chunk_id = h.id) = true := by simp [mkChunk]
        simp only [dedupHits, hm, if_false, List.filter_cons, hkeep, if_true]
        rw [ih (h.id :: seen) h.id]
        simp [hm, List.find?, mkChunk]
      · have hkeep : decide ((mkChunk h).chunk_id = i) = false := by simp [mkChunk, hhi]
        have hne2 : ¬ i = h.id := fun e => hhi e.symm
        simp only [dedupHits, hm, if_false, List.filter_cons, hkeep]
        rw [ih (h.id :: seen) i]
        by_cases hi : i ∈ seen
        · simp [hi, List.find?, hhi]
        · have hni : ¬ i ∈ h.id :: seen := by simp [List.mem_cons, hi, hne2]
          simp [hi, hni, List.find?, hhi]

/-- Stability of ordered insertion for a rational key: the subsequence at
any fixed key value gains the new element in front exactly when it carries
that key. -/
lemma filter_key_orderedInsert {α : Type} (key : α → ℚ) (q : ℚ) (x : α) (m : List α) :
    (List.orderedInsert (keyGE key) x m).filter (fun a => decide (key a = q)) =
      if key x = q then x :: m.filter (fun a => decide (key a = q))
      else m.filter (fun a => decide (key a = q)) := by
  induction m with
  | nil => by_cases h : key x = q <;> simp [List.orderedInsert, h]
  | cons y ys ih =>
    by_cases hr : keyGE key x y
    · by_cases h : key x = q <;> simp [List.orderedInsert, hr, h]
    · have hlt : key x < key y := lt_of_not_le hr
      by_cases h : key x = q
      · have hy : ¬ (key y = q) := fun e => absurd (h ▸ e ▸ hlt) (lt_irrefl _)
        simp [List.orderedInsert, hr, h, hy, ih]
      · by_cases hy : key y = q <;> simp [List.orderedInsert, hr, h, hy, ih]

/-- Stability of insertion sort for a rational key: sorting does not change
the subsequence of elements sharing any fixed key value. -/
lemma filter_key_insertionSort {α : Type} (key : α → ℚ) (q : ℚ) (l : List α) :
    (List.insertionSort (keyGE key) l).filter (fun a => decide (key a = q)) =
      l.filter (fun a => decide (key a = q)) := by
  induction l with
  | nil => rfl
  | cons x xs ih =>
    simp only [List.insertionSort, filter_key_orderedInsert, ih, List.filter_cons]
    by_cases h : key x = q <;> simp [h]

/-- The deduplication loop of the pipeline never emits a duplicate id nor
an id from the seen set. -/
lemma dedup_validated_from_ids_nodup (l : List ValidatedChunk) : ∀ seen : List String,
    ((dedup_validated_from seen l).map (fun vc => vc.chunk.chunk_id)).Nodup ∧
      ∀ x ∈ (dedup_validated_from seen l).map (fun vc => vc.chunk.chunk_id), x ∉ seen := by
  induction l with
  | nil => intro seen; simp [dedup_validated_from]
  | cons vc t ih =>
    intro seen
    by_cases hm : vc.chunk.chunk_id ∈ seen
    · simpa [dedup_validated_from, hm] using ih seen
    · obtain ⟨ih1, ih2⟩ := ih (vc.chunk.chunk_id :: seen)
      refine ⟨?_, ?_⟩
      · simp only [dedup_validated_from, hm, if_false, List.map_cons, List.nodup_cons]
        exact ⟨fun hx => (ih2 _ hx) (List.mem_cons_self _ _), ih1⟩
      · intro x hx
        simp only [dedup_validated_from, hm, if_false, List.map_cons, List.mem_cons] at hx
        rcases hx with rfl | hx
        · exact hm
        · exact fun hs => (ih2 _ hx) (List.mem_cons_of_mem _ hs)

/-- The deduplication loop only consults the seen set through membership. -/
lemma dedup_validated_from_congr (l : List ValidatedChunk) : ∀ s1 s2 : List String,
    (∀ x, x ∈ s1 ↔ x ∈ s2) →
      dedup_validated_from s1 l = dedup_validated_from s2 l := by
  induction l with
  | nil => intro s1 s2 _; rfl
  | cons vc t ih =>
    intro s1 s2 hs
    by_cases hm : vc.chunk.chunk_id ∈ s1
    · have hm2 : vc.chunk.chunk_id ∈ s2 := (hs _).mp hm
      simp [dedup_validated_from, hm, hm2, ih s1 s2 hs]
    · have hm2 : ¬ vc.chunk.chunk_id ∈ s2 := fun h => hm ((hs _).mpr h)
      have hs2 : ∀ x, x ∈ vc.chunk.chunk_id :: s1 ↔ x ∈ vc.chunk.chunk_id :: s2 := by
        intro x; simp [List.mem_cons, hs x]
      simp [dedup_validated_from, hm, hm2, ih _ _ hs2]

/-- Running the deduplication loop over a concatenation whose first part
already has pairwise distinct ids, none of them seen, keeps the first part
verbatim and continues into the second with the ids accumulated. -/
lemma dedup_validated_from_append (a : List ValidatedChunk) :
    ∀ (seen : List String) (r : List ValidatedChunk),
    (a.map (fun vc => vc.chunk.chunk_id)).Nodup →
    (∀ x ∈ a.map (fun vc => vc.chunk.chunk_id), x ∉ seen) →
      dedup_validated_from seen (a ++ r) =
        a ++ dedup_validated_from ((a.map (fun vc => vc.chunk.chunk_id)).reverse ++ seen) r := by
  induction a with
  | nil => intro seen r _ _; simp
  | cons vc t ih =>
    intro seen r hnd hdis
    rw [List.map_cons] at hnd hdis
    have hnd2 := List.nodup_cons.mp hnd
    have hm : ¬ vc.chunk.chunk_id ∈ seen := hdis _ (by simp)
    simp only [List.cons_append, dedup_validated_from, hm, if_false, List.append_eq]
    rw [ih (vc.chunk.chunk_id :: seen) r hnd2.2
      (by
        intro x hx
        simp only [List.mem_cons, not_or]
        exact ⟨fun e => hnd2.1 (e ▸ hx), hdis _ (List.mem_cons_of_mem _ hx)⟩)]
    simp [List.append_assoc]

/-- Mapping a projection that a filterMap preserves yields a sublist of the
projected input. -/
lemma map_filterMap_sublist {α β γ : Type} (f : α → Option β) (g : β → γ) (g2 : α → γ)
    (hf : ∀ a b, f a = some b → g b = g2 a) :
    ∀ l : List α, List.Sublist ((l.filterMap f).map g) (l.map g2) := by
  intro l
  induction l with
  | nil => simp
  | cons a t ih =>
    cases hfa : f a with
    | none =>
      simp only [List.filterMap_cons, hfa, List.map_cons]
      exact List.Sublist.cons (g2 a) ih
    | some b =>
      simp only [List.filterMap_cons, hfa, List.map_cons, hf a b hfa]
      exact List.Sublist.cons₂ (g2 a) ih

/-- Every retrieval pass emits pairwise distinct chunk ids. -/
lemma retrieve_parallel_ids_nodup (store : String → ℕ → List RawHit)
    (sub_queries : List SubQuery) (top_k : ℕ) :
    ((retrieve_parallel store sub_queries top_k).map (fun c => c.chunk_id)).Nodup := by
  have hperm :=
    (List.perm_insertionSort (keyGE RetrievedChunk.relevance_score)
      (dedupHits [] (sub_queries.flatMap (fun sq => store sq.text top_k)))).map
      (fun c => c.chunk_id)
  exact hperm.symm.nodup
    (dedupHits_ids_nodup (sub_queries.flatMap (fun sq => store sq.text top_k)) []).1

/-- The validated list keeps a sub-multiset of the incoming chunks, so
distinct incoming chunk ids stay distinct. -/
lemma validate_batch_ids_nodup (thr : ℚ) (chunks : List RetrievedChunk)
    (sub_queries : List SubQuery) (original_query : String)
    (h : (chunks.map (fun c => c.chunk_id)).Nodup) :
    (((validate_batch thr chunks sub_queries original_query).1).map
      (fun vc => vc.chunk.chunk_id)).Nodup := by
  by_cases hc : chunks = []
  · simp [validate_batch, hc]
  · simp only [validate_batch, hc, if_false]
    set f : RetrievedChunk → Option ValidatedChunk := fun c =>
      let v := validate_single c original_query
      if v.1 ≥ thr then some ⟨c, v.1, v.2⟩ else none with hf
    have hpres : ∀ c vc, f c = some vc → vc.chunk.chunk_id = c.chunk_id := by
      intro c vc hfc
      simp only [hf] at hfc
      by_cases hge : (validate_single c original_query).1 ≥ thr
      · simp only [hge, if_true, Option.some.injEq] at hfc
        rw [← hfc]
      · simp [hge] at hfc
    have hsub := map_filterMap_sublist f (fun vc => vc.chunk.chunk_id)
      (fun c => c.chunk_id) hpres chunks
    have hnd := hsub.nodup h
    have hperm :=
      (List.perm_insertionSort (keyGE ValidatedChunk.confidence)
        (chunks.filterMap f)).map (fun vc => vc.chunk.chunk_id)
    exact hperm.symm.nodup hnd

/-- The chunk list feeding the sources of one pipeline run has pairwise
distinct chunk ids, whichever branch was taken. -/
lemma process_validated_ids_nodup (store : String → ℕ → List RawHit) (thr : ℚ)
    (sub_queries : List SubQuery) (query : String) :
    ((process_validated store thr sub_queries query).map
      (fun vc => vc.chunk.chunk_id)).Nodup := by
  simp only [process_validated]
  by_cases hre : (validate_batch thr (retrieve_parallel store sub_queries 5)
      sub_queries query).2.2
  · simp only [hre, if_true]
    exact (dedup_validated_from_ids_nodup _ []).1
  · simp only [hre, if_false]
    exact validate_batch_ids_nodup thr _ sub_queries query
      (retrieve_parallel_ids_nodup store sub_queries 5)

/-! ## Claim theorems -/

/-- Claim C1: for every query processed by RAGPipeline.process, the
returned RAGResult sources are built from the top validated chunks, and
those chunks never contain two entries with the same underlying chunk_id,
including when the re-retrieval branch merges additional chunks in. -/
theorem pipeline_sources_unique_chunk_ids (store : String → ℕ → List RawHit)
    (thr : ℚ) (sub_queries : List SubQuery) (query : String) (max_sources : ℕ)
    (answer : String) (elapsed_ms : Int) (model : String) :
    (process store thr sub_queries query max_sources answer elapsed_ms model).sources =
      ((process_validated store thr sub_queries query).take max_sources).map source_of ∧
    (((process_validated store thr sub_queries query).take max_sources).map
      (fun vc => vc.chunk.chunk_id)).Nodup := by
  refine ⟨rfl, ?_⟩
  rw [List.map_take]
  exact (List.take_sublist _ _).nodup
    (process_validated_ids_nodup store thr sub_queries query)

/-- Claim C3: when the pipeline takes the re-retrieval branch, every
additional chunk is appended as a ValidatedChunk whose confidence is the
raw relevance score with the fixed "Retry retrieval" reasoning, the merged
list is deduplicated by chunk_id first-occurrence-wins, and it is not
re-sorted: the original validated chunks keep their positions as a prefix
and the retried chunks follow in retrieval order. -/
theorem pipeline_reretrieval_merge (store : String → ℕ → List RawHit) (thr : ℚ)
    (sub_queries : List SubQuery) (query : String)
    (hre : (validate_batch thr (retrieve_parallel store sub_queries 5)
      sub_queries query).2.2 = true) :
    process_validated store thr sub_queries query =
      (validate_batch thr (retrieve_parallel store sub_queries 5) sub_queries query).1 ++
        dedup_validated_from
          (((validate_batch thr (retrieve_parallel store sub_queries 5)
            sub_queries query).1).map (fun vc => vc.chunk.chunk_id))
          ((retrieve_parallel store (expand_queries sub_queries) 3).map
            (fun c => ⟨c, c.relevance_score, "Retry retrieval"⟩)) := by
  have hnd := validate_batch_ids_nodup thr (retrieve_parallel store sub_queries 5)
    sub_queries query (retrieve_parallel_ids_nodup store sub_queries 5)
  simp only [process_validated, hre, if_true, deduplicate_validated]
  rw [dedup_validated_from_append _ [] _ hnd (by simp)]
  rw [dedup_validated_from_congr _ _
    ((((validate_batch thr (retrieve_parallel store sub_queries 5)
      sub_queries query).1).map (fun vc => vc.chunk.chunk_id)))
    (by intro x; simp)]

/-- Witness for C3: a store with no hits forces the re-retrieval branch,
and the merge equation holds there. -/
theorem pipeline_reretrieval_merge_witness :
    process_validated (fun _ _ => ([] : List RawHit)) (6 / 10) [⟨"a", 1⟩] "a" =
      (validate_batch (6 / 10) (retrieve_parallel (fun _ _ => []) [⟨"a", 1⟩] 5)
        [⟨"a", 1⟩] "a").1 ++
        dedup_validated_from
          (((validate_batch (6 / 10) (retrieve_parallel (fun _ _ => []) [⟨"a", 1⟩] 5)
            [⟨"a", 1⟩] "a").1).map (fun vc => vc.chunk.chunk_id))
          ((retrieve_parallel (fun _ _ => []) (expand_queries [⟨"a", 1⟩]) 3).map
            (fun c => ⟨c, c.relevance_score, "Retry retrieval"⟩)) :=
  pipeline_reretrieval_merge (fun _ _ => []) (6 / 10) [⟨"a", 1⟩] "a" rfl

/-- Claim C4: the validator confidence is half the lexical overlap ratio of
the query word set with the chunk word set (0 for an empty query word set)
plus half the raw relevance score. -/
theorem validator_confidence_formula (chunk : RetrievedChunk) (query : String) :
    (validate_single chunk query).1 =
      (1 / 2) * (if pyWords query = ∅ then 0
        else ((pyWords query ∩ pyWords chunk.content).card : ℚ) / (pyWords query).card)
      + (1 / 2) * chunk.relevance_score := by
  by_cases h : pyWords query = ∅ <;> simp [validate_single, h] <;> ring

/-- Claim C6: each raw hit scores clamp(1 - d/2, 0, 1) of its cosine
distance d; distance 0 gives 1, distance 2 gives 0, a missing distance
gives 0.5. -/
theorem retriever_distance_to_score (h : RawHit) :
    (∀ d : ℚ, h.distance = some d →
      (mkChunk h).relevance_score = max 0 (min 1 (1 - d / 2))) ∧
    (h.distance = some 0 → (mkChunk h).relevance_score = 1) ∧
    (h.distance = some 2 → (mkChunk h).relevance_score = 0) ∧
    (h.distance = none → (mkChunk h).relevance_score = 1 / 2) := by
  refine ⟨?_, ?_, ?_, ?_⟩
  · intro d hd; norm_num [mkChunk, hitScore, hd]
  · intro hd; norm_num [mkChunk, hitScore, hd]
  · intro hd; norm_num [mkChunk, hitScore, hd]
  · intro hd; norm_num [mkChunk, hitScore, hd]

/-- Witness for C6: concrete hits at distance 0, 2 and missing. -/
theorem retriever_distance_to_score_witness :
    (mkChunk ⟨"c", none, none, "i", some 0⟩).relevance_score = 1 ∧
    (mkChunk ⟨"c", none, none, "i", some 2⟩).relevance_score = 0 ∧
    (mkChunk ⟨"c", none, none, "i", none⟩).relevance_score = 1 / 2 :=
  ⟨(retriever_distance_to_score ⟨"c", none, none, "i", some 0⟩).2.1 rfl,
   (retriever_distance_to_score ⟨"c", none, none, "i", some 2⟩).2.2.1 rfl,
   (retriever_distance_to_score ⟨"c", none, none, "i", none⟩).2.2.2 rfl⟩

/-- Claim C7: the validated list returned by validate_batch is sorted by
confidence descending, and the empty chunk list returns no validated
chunks, all sub-query texts as missing topics, and re-retrieval true. -/
theorem validator_sorted_and_empty_case (thr : ℚ) (chunks : List RetrievedChunk)
    (sub_queries : List SubQuery) (q : String) :
    List.Sorted (fun a b => b.confidence ≤ a.confidence)
      (validate_batch thr chunks sub_queries q).1 ∧
    validate_batch thr [] sub_queries q =
      ([], sub_queries.map (fun sq => sq.text), true) := by
  constructor
  · by_cases hc : chunks = []
    · simp [validate_batch, hc]
    · simp only [validate_batch, hc, if_false]
      exact List.sorted_insertionSort (keyGE ValidatedChunk.confidence) _
  · rfl

/-- Claim C10: a constructor argument at most 0 (the default included)
leaves the effective filtering threshold at the configured
validation_threshold, so the threshold cannot be overridden to 0 or below
through the constructor. -/
theorem validator_threshold_floor (min_confidence vt : ℚ) :
    (min_confidence ≤ 0 → validator_min_confidence min_confidence vt = vt) ∧
    (0 < vt → 0 < validator_min_confidence min_confidence vt) ∧
    (min_confidence ≤ 0 →
      validator_min_confidence min_confidence validation_threshold_default =
        validation_threshold_default) := by
  refine ⟨?_, ?_, ?_⟩
  · intro h; simp [validator_min_confidence, not_lt.mpr h]
  · intro h
    by_cases hm : min_confidence > 0
    · rw [validator_min_confidence, if_pos hm]; exact hm
    · rw [validator_min_confidence, if_neg hm]; exact h
  · intro h; simp [validator_min_confidence, not_lt.mpr h]

/-- Witness for C10: the default argument 0 and a negative argument both
fall back to the configured default threshold, which stays positive. -/
theorem validator_threshold_floor_witness :
    validator_min_confidence 0 validation_threshold_default =
      validation_threshold_default ∧
    0 < validator_min_confidence (-1) validation_threshold_default :=
  ⟨(validator_threshold_floor 0 validation_threshold_default).1 le_rfl,
   (validator_threshold_floor (-1) validation_threshold_default).2.1
     (by norm_num [validation_threshold_default])⟩

/-- A permutation of a list with at most one element is an equality. -/
lemma perm_eq_of_length_le_one {α : Type} {l m : List α}
    (h : l.Perm m) (hm : m.length ≤ 1) : l = m := by
  cases m with
  | nil => exact h.eq_nil
  | cons a t =>
    cases t with
    | nil => exact List.perm_singleton.mp h
    | cons b u => simp at hm

/-- Claim C5: a retrieval pass yields pairwise distinct chunk ids, sorted
by relevance score descending with ties kept in encounter order (stable
sort), and for each id the surviving chunk is the one built from the first
hit carrying it across the sub-query result sets. -/
theorem retriever_output_contract (store : String → ℕ → List RawHit)
    (sub_queries : List SubQuery) (top_k : ℕ) :
    ((retrieve_parallel store sub_queries top_k).map (fun c => c.chunk_id)).Nodup ∧
    List.Sorted (fun a b => b.relevance_score ≤ a.relevance_score)
      (retrieve_parallel store sub_queries top_k) ∧
    (∀ q : ℚ,
      (retrieve_parallel store sub_queries top_k).filter
          (fun c => decide (c.relevance_score = q)) =
        (dedupHits [] (sub_queries.flatMap (fun sq => store sq.text top_k))).filter
          (fun c => decide (c.relevance_score = q))) ∧
    (∀ i : String,
      (retrieve_parallel store sub_queries top_k).filter
          (fun c => decide (c.chunk_id = i)) =
        (((sub_queries.flatMap (fun sq => store sq.text top_k)).find?
            (fun h => decide (h.id = i))).map mkChunk).toList) := by
  refine ⟨retrieve_parallel_ids_nodup store sub_queries top_k, ?_, ?_, ?_⟩
  · exact List.sorted_insertionSort (keyGE RetrievedChunk.relevance_score) _
  · intro q
    exact filter_key_insertionSort RetrievedChunk.relevance_score q _
  · intro i
    have hd := dedupHits_filter_id
      (sub_queries.flatMap (fun sq => store sq.text top_k)) [] i
    rw [if_neg (List.not_mem_nil i)] at hd
    have hperm :=
      (List.perm_insertionSort (keyGE RetrievedChunk.relevance_score)
        (dedupHits [] (sub_queries.flatMap (fun sq => store sq.text top_k)))).filter
        (fun c => decide (c.chunk_id = i))
    rw [hd] at hperm
    exact perm_eq_of_length_le_one hperm
      (by
        generalize ((sub_queries.flatMap (fun sq => store sq.text top_k)).find?
          (fun h => decide (h.id = i))) = o
        cases o <;> simp [Option.toList])

/-- A sub-query text is a missing topic exactly when it is not a covered
topic. -/
lemma mem_missing_iff (sub_queries : List SubQuery) (covered : List String)
    {t : String} (ht : ∃ sq ∈ sub_queries, sq.text = t) :
    (t ∈ (sub_queries.filter (fun sq => !(decide (sq.text ∈ covered)))).map
        (fun sq => sq.text) ↔ ¬ t ∈ covered) := by
  constructor
  · intro hm
    obtain ⟨sq, hsq, rfl⟩ := List.mem_map.mp hm
    simpa using (List.mem_filter.mp hsq).2
  · intro hnc
    obtain ⟨sq, hsq, rfl⟩ := ht
    exact List.mem_map.mpr ⟨sq, List.mem_filter.mpr ⟨hsq, by simpa using hnc⟩, rfl⟩

/-- A sub-query text is a covered topic exactly when one of the tested
chunks covers it. -/
lemma mem_covered_iff (sub_queries : List SubQuery) (top : List ValidatedChunk)
    {t : String} (ht : ∃ sq ∈ sub_queries, sq.text = t) :
    (t ∈ top.flatMap (fun vc => sub_queries.filterMap (fun sq =>
        if topic_coverage vc.chunk sq.text then some sq.text else none)) ↔
      ∃ vc ∈ top, topic_coverage vc.chunk t = true) := by
  constructor
  · intro hm
    obtain ⟨vc, hvc, hmem⟩ := List.mem_flatMap.mp hm
    obtain ⟨sq, _, heq⟩ := List.mem_filterMap.mp hmem
    by_cases hcov : topic_coverage vc.chunk sq.text
    · rw [if_pos hcov, Option.some.injEq] at heq
      exact ⟨vc, hvc, heq ▸ hcov⟩
    · rw [if_neg hcov] at heq; cases heq
  · rintro ⟨vc, hvc, hcov⟩
    obtain ⟨sq, hsq, rfl⟩ := ht
    exact List.mem_flatMap.mpr ⟨vc, hvc,
      List.mem_filterMap.mpr ⟨sq, hsq, by rw [if_pos hcov]⟩⟩

/-- The re-retrieval decision, separated from the scoring pass: the boolean
computed by the validator is true exactly when fewer than three chunks were
validated or a priority-1 sub-query is uncovered by the top five. -/
lemma reretrieval_decision (validated : List ValidatedChunk)
    (sub_queries : List SubQuery) :
    ((decide (validated.length < 3) ||
      sub_queries.any (fun sq =>
        decide (sq.text ∈ (sub_queries.filter (fun sq2 => !(decide (sq2.text ∈
          (validated.take 5).flatMap (fun vc => sub_queries.filterMap (fun sq3 =>
            if topic_coverage vc.chunk sq3.text then some sq3.text
            else none)))))).map (fun sq2 => sq2.text)) &&
        decide (sq.priority = 1))) = true) ↔
    (validated.length < 3 ∨ ∃ sq ∈ sub_queries, sq.priority = 1 ∧
      ∀ vc ∈ validated.take 5, topic_coverage vc.chunk sq.text = false) := by
  rw [Bool.or_eq_true, decide_eq_true_iff]
  apply or_congr Iff.rfl
  rw [List.any_eq_true]
  constructor
  · rintro ⟨sq, hsq, hb⟩
    rw [Bool.and_eq_true, decide_eq_true_iff, decide_eq_true_iff] at hb
    obtain ⟨hmiss, hp⟩ := hb
    have hnc := (mem_missing_iff sub_queries _ ⟨sq, hsq, rfl⟩).mp hmiss
    refine ⟨sq, hsq, hp, ?_⟩
    intro vc hvc
    by_contra hcov
    exact hnc ((mem_covered_iff sub_queries _ ⟨sq, hsq, rfl⟩).mpr
      ⟨vc, hvc, by simpa using hcov⟩)
  · rintro ⟨sq, hsq, hp, hcov⟩
    refine ⟨sq, hsq, ?_⟩
    rw [Bool.and_eq_true, decide_eq_true_iff, decide_eq_true_iff]
    refine ⟨?_, hp⟩
    apply (mem_missing_iff sub_queries _ ⟨sq, hsq, rfl⟩).mpr
    intro hcc
    obtain ⟨vc, hvc, hc2⟩ := (mem_covered_iff sub_queries _ ⟨sq, hsq, rfl⟩).mp hcc
    rw [hcov vc hvc] at hc2
    cases hc2

/-- Claim C2: for a non-empty chunk list, the validator requests
re-retrieval exactly when fewer than three chunks were validated or some
priority-1 sub-query is among the missing topics, that is, covered by none
of the top five validated chunks. -/
theorem validator_reretrieval_iff (thr : ℚ) (chunks : List RetrievedChunk)
    (sub_queries : List SubQuery) (q : String) (hc : chunks ≠ []) :
    ((validate_batch thr chunks sub_queries q).2.2 = true ↔
      ((validate_batch thr chunks sub_queries q).1.length < 3 ∨
        ∃ sq ∈ sub_queries, sq.priority = 1 ∧
          ∀ vc ∈ ((validate_batch thr chunks sub_queries q).1).take 5,
            topic_coverage vc.chunk sq.text = false)) := by
  simp only [validate_batch, hc, if_false]
  exact reretrieval_decision _ sub_queries

/-- Witness for C2: one low-scoring chunk cannot reach three validated
chunks, so re-retrieval is requested. -/
theorem validator_reretrieval_iff_witness :
    (([⟨"a b", "d", "s", 1 / 2, "id1"⟩] : List RetrievedChunk) ≠ []) ∧
    ((validate_batch (6 / 10) [⟨"a b", "d", "s", 1 / 2, "id1"⟩] [⟨"a", 1⟩] "a").2.2 = true ↔
      ((validate_batch (6 / 10) [⟨"a b", "d", "s", 1 / 2, "id1"⟩] [⟨"a", 1⟩] "a").1.length < 3 ∨
        ∃ sq ∈ ([⟨"a", 1⟩] : List SubQuery), sq.priority = 1 ∧
          ∀ vc ∈ ((validate_batch (6 / 10) [⟨"a b", "d", "s", 1 / 2, "id1"⟩]
              [⟨"a", 1⟩] "a").1).take 5,
            topic_coverage vc.chunk sq.text = false)) :=
  ⟨by simp,
   validator_reretrieval_iff (6 / 10) [⟨"a b", "d", "s", 1 / 2, "id1"⟩]
     [⟨"a", 1⟩] "a" (by simp)⟩

/-- The failure conditions of the planner named by the spec: the service
raised, the content was None or undecodable, or the parsed data yielded no
usable entry (including a non-iterable inner value, which yields none). -/
def planFailure : PlanOutcome → Prop
  | .serviceError => True
  | .contentNone => True
  | .parseError => True
  | .parsed j =>
    match j.extractList with
    | none => True
    | some l => l.filterMap entryToSub = []

/-- Claim C8: plan always returns a non-empty sequence, and under any of
the failure conditions it returns exactly one sub-query equal to the
original query with priority 1. -/
theorem planner_nonempty_and_fallback (query : String) (outcome : PlanOutcome) :
    plan query outcome ≠ [] ∧
      (planFailure outcome → plan query outcome = fallbackPlan query) := by
  constructor
  · cases outcome with
    | serviceError => simp [plan, fallbackPlan]
    | contentNone => simp [plan, fallbackPlan]
    | parseError => simp [plan, fallbackPlan]
    | parsed j =>
      simp only [plan, planFromParsed]
      cases hx : j.extractList with
      | none => simp [fallbackPlan]
      | some l =>
        by_cases he : (l.filterMap entryToSub).isEmpty
        · simp [he, fallbackPlan]
        · dsimp only
          rw [if_neg he]
          intro hnil
          exact he (by simp [hnil])
  · intro hf
    cases outcome with
    | serviceError => rfl
    | contentNone => rfl
    | parseError => rfl
    | parsed j =>
      simp only [plan, planFromParsed]
      simp only [planFailure] at hf
      cases hx : j.extractList with
      | none => rfl
      | some l =>
        rw [hx] at hf
        simp only at hf
        simp [hf]

/-- Witness for C8: a service error yields the single original-query
fallback. -/
theorem planner_nonempty_and_fallback_witness :
    plan "q" PlanOutcome.serviceError ≠ [] ∧
      plan "q" PlanOutcome.serviceError = fallbackPlan "q" :=
  ⟨(planner_nonempty_and_fallback "q" PlanOutcome.serviceError).1,
   (planner_nonempty_and_fallback "q" PlanOutcome.serviceError).2 trivial⟩

/-- Counterexample to claim C9 as stated: an entry whose priority field is
present but malformed (a string) is carried through unchanged into the
resulting sub-query instead of being defaulted to 1. -/
theorem planner_priority_counterexample :
    planFromParsed "orig"
        (Json.arr [Json.obj [("query", Json.str "x"), ("priority", Json.str "high")]]) =
      [⟨Json.str "x", Json.str "high"⟩] ∧
    Json.str "high" ≠ Json.num 1 :=
  ⟨rfl, fun h => Json.noConfusion h⟩

/-- Claim C9 amended: the resulting sub-query priority is 1 exactly when
the entry's priority field is absent; a present priority value, well-formed
or not, is carried through unchanged. -/
theorem planner_priority_passthrough (d : List (String × Json)) (s : PSub)
    (h : entryToSub (Json.obj d) = some s) :
    (Json.lookup d "priority" = none → s.priority = Json.num 1) ∧
    (∀ p, Json.lookup d "priority" = some p → s.priority = p) := by
  simp only [entryToSub] at h
  by_cases ht : ((Json.lookup d "query").getD
      ((Json.lookup d "text").getD (Json.str ""))).truthy
  · rw [if_pos ht, Option.some.injEq] at h
    constructor
    · intro hp
      rw [← h]
      simp [hp]
    · intro p hp
      rw [← h]
      simp [hp]
  · rw [if_neg ht] at h
    cases h

/-- Witness for the amended C9: an entry without a priority field gets
priority 1, and one with a malformed priority keeps it. -/
theorem planner_priority_passthrough_witness :
    (⟨Json.str "x", Json.num 1⟩ : PSub).priority = Json.num 1 ∧
    (⟨Json.str "x", Json.str "high"⟩ : PSub).priority = Json.str "high" :=
  ⟨(planner_priority_passthrough [("query", Json.str "x")]
      ⟨Json.str "x", Json.num 1⟩ rfl).1 rfl,
   (planner_priority_passthrough [("query", Json.str "x"), ("priority", Json.str "high")]
      ⟨Json.str "x", Json.str "high"⟩ rfl).2 (Json.str "high") rfl⟩

end RAG
